import Mathlib

/-!
Shallow embedding of `cyaron/query.py` (`RangeQueryRandomMode`, `RangeQuery`).

The process-wide random source is modelled as an explicit state `RNG`: a
stream of booleans (one per `random.random() < big_query` branch decision),
a stream of naturals (entropy for `random.randint`), and a counter of draws
consumed.  `random.randint(lo, hi)` is modelled as `lo + n % (hi - lo + 1)`
for the next stream natural `n`, which ranges over exactly `[lo, hi]`; it
fails when `lo > hi` (the empty-range case).  The `while` rejection loop of
the small-query branch is given fuel; running out of fuel returns the
distinguished error `Err.fuelOut`, the model's marker for the
(probability-zero) event that the rejection loop never terminates.
Errors return the random state reached when they are raised, matching the
fact that a Python exception leaves the global random source advanced.
-/

/-- Mode enumeration from `RangeQueryRandomMode` (IntEnum): `LESS` disallows
`l = r`, `ALLOW_EQUAL` allows it. -/
inductive RangeQueryRandomMode
  | LESS
  | ALLOW_EQUAL
deriving DecidableEq, Repr

/-- One per-dimension entry of `position_range`: a bare integer `u`, a
one-element sequence `(x,)`, or a two-element sequence `(lo, hi)`. -/
inductive BoundSpec
  | int (u : Int)
  | one (x : Int)
  | pair (lo hi : Int)
deriving DecidableEq, Repr

/-- Normalization performed at the top of the dimension loop of
`get_one_query`: an integer `u` becomes `(1, u)`, a one-element `(x,)`
becomes `(1, x)`, a pair is used as-is. -/
def normalizeBound : BoundSpec → Int × Int
  | BoundSpec.int u => (1, u)
  | BoundSpec.one x => (1, x)
  | BoundSpec.pair lo hi => (lo, hi)

/-- Failure outcomes.  `upperLessLower` and `lessButEqual` are the two
`ValueError`s raised by validation in `get_one_query`; `randintEmpty` models
the `ValueError` `random.randint` raises on an empty range; `fuelOut` is the
model's marker for a non-terminating rejection loop. -/
inductive Err
  | upperLessLower
  | lessButEqual
  | randintEmpty
  | fuelOut
deriving DecidableEq, Repr

/-- Explicit random-source state: branch-decision stream, integer-entropy
stream, and the number of draws consumed so far. -/
structure RNG where
  bits : Nat → Bool
  nats : Nat → Nat
  pos : Nat

/-- Consume one draw. -/
def RNG.bump (g : RNG) : RNG := ⟨g.bits, g.nats, g.pos + 1⟩

/-- Model of `random.randint(lo, hi)`: uniform over `[lo, hi]` (the next
stream natural reduced mod the range size), error on an empty range. -/
def randint (lo hi : Int) (g : RNG) : Except Err Int × RNG :=
  if lo ≤ hi then
    (Except.ok (lo + (g.nats g.pos : Int) % (hi - lo + 1)), g.bump)
  else (Except.error Err.randintEmpty, g)

/-- The two initial draws of the small-query branch:
`l = random.randint(lo, hi); r = random.randint(lo, hi)`. -/
def drawPair (lo hi : Int) (g : RNG) : Except Err (Int × Int) × RNG :=
  match randint lo hi g with
  | (Except.error e, g1) => (Except.error e, g1)
  | (Except.ok l, g1) =>
    match randint lo hi g1 with
    | (Except.error e, g2) => (Except.error e, g2)
    | (Except.ok r, g2) => (Except.ok (l, r), g2)

/-- The rejection loop `while mode == LESS and l == r: redraw l, r`, with
fuel bounding the number of redraw iterations. -/
def rejectLoop (mode : RangeQueryRandomMode) (lo hi : Int) :
    Nat → Int → Int → RNG → Except Err (Int × Int) × RNG
  | 0, l, r, g =>
    if mode = RangeQueryRandomMode.LESS ∧ l = r then (Except.error Err.fuelOut, g)
    else (Except.ok (l, r), g)
  | fuel + 1, l, r, g =>
    if mode = RangeQueryRandomMode.LESS ∧ l = r then
      match drawPair lo hi g with
      | (Except.error e, g1) => (Except.error e, g1)
      | (Except.ok lr, g1) => rejectLoop mode lo hi fuel lr.1 lr.2 g1
    else (Except.ok (l, r), g)

/-- Big-query branch of `get_one_query` (taken when
`random.random() < big_query`): `cur_l = hi - lo + 1`,
`lb = max(2 if mode == LESS else 1, cur_l // 2)`,
`ql = randint(lb, cur_l)`, `l = randint(lo, hi - ql + 1)`, `r = l + ql - 1`. -/
def bigBranch (mode : RangeQueryRandomMode) (lo hi : Int) (g : RNG) :
    Except Err (Int × Int) × RNG :=
  let cur_l := hi - lo + 1
  let lb := max (if mode = RangeQueryRandomMode.LESS then 2 else 1) (Int.fdiv cur_l 2)
  match randint lb cur_l g with
  | (Except.error e, g1) => (Except.error e, g1)
  | (Except.ok ql, g1) =>
    match randint lo (hi - ql + 1) g1 with
    | (Except.error e, g2) => (Except.error e, g2)
    | (Except.ok l, g2) => (Except.ok (l, l + ql - 1), g2)

/-- Small-query branch of `get_one_query`: two uniform draws, the
rejection loop under `LESS`, then `if l > r: l, r = r, l`. -/
def smallBranch (mode : RangeQueryRandomMode) (fuel : Nat) (lo hi : Int)
    (g : RNG) : Except Err (Int × Int) × RNG :=
  match drawPair lo hi g with
  | (Except.error e, g1) => (Except.error e, g1)
  | (Except.ok lr, g1) =>
    match rejectLoop mode lo hi fuel lr.1 lr.2 g1 with
    | (Except.error e, g2) => (Except.error e, g2)
    | (Except.ok lr2, g2) =>
      (Except.ok (if lr2.1 > lr2.2 then (lr2.2, lr2.1) else lr2), g2)

/-- One iteration of the dimension loop of `get_one_query`: validate the
normalized bounds `(lo, hi)`, then draw the branch decision and sample. -/
def sampleDim (mode : RangeQueryRandomMode) (fuel : Nat) (lo hi : Int)
    (g : RNG) : Except Err (Int × Int) × RNG :=
  if lo > hi then (Except.error Err.upperLessLower, g)
  else if mode = RangeQueryRandomMode.LESS ∧ lo = hi then
    (Except.error Err.lessButEqual, g)
  else if g.bits g.pos then bigBranch mode lo hi g.bump
  else smallBranch mode fuel lo hi g.bump

/-- The full dimension loop: sample each bound in order, collecting the `l`
and `r` vectors (`query_l`, `query_r`). -/
def sampleDims (mode : RangeQueryRandomMode) (fuel : Nat) :
    List BoundSpec → RNG → Except Err (List Int × List Int) × RNG
  | [], g => (Except.ok ([], []), g)
  | b :: bs, g =>
    match sampleDim mode fuel (normalizeBound b).1 (normalizeBound b).2 g with
    | (Except.error e, g1) => (Except.error e, g1)
    | (Except.ok lr, g1) =>
      match sampleDims mode fuel bs g1 with
      | (Except.error e, g2) => (Except.error e, g2)
      | (Except.ok lsrs, g2) =>
        (Except.ok (lr.1 :: lsrs.1, lr.2 :: lsrs.2), g2)

/-- One generated query triple `(query_l, query_r, w)`.  Weights are
modelled as lists of integers, the empty tuple `()` as the empty list. -/
structure Triple where
  l : List Int
  r : List Int
  w : List Int
deriving DecidableEq, Repr

/-- Model of `RangeQuery.get_one_query`.  The `big_query` float is absorbed
into the `RNG.bits` stream (one Bernoulli decision per dimension); `fuel`
bounds the rejection loop. -/
def RangeQuery.get_one_query (position_range : Option (List BoundSpec))
    (mode : RangeQueryRandomMode)
    (weight_generator : Option (Nat → List Int → List Int → List Int))
    (index : Nat) (fuel : Nat) (g : RNG) : Except Err Triple × RNG :=
  let pr := position_range.getD [BoundSpec.int 10]
  match sampleDims mode fuel pr g with
  | (Except.error e, g1) => (Except.error e, g1)
  | (Except.ok lsrs, g1) =>
    match weight_generator with
    | none => (Except.ok ⟨lsrs.1, lsrs.2, []⟩, g1)
    | some f => (Except.ok ⟨lsrs.1, lsrs.2, f index lsrs.1 lsrs.2⟩, g1)

/-- The loop of `RangeQuery.random`: `k` remaining calls, the next one made
with 1-based index `i`, results collected in generation order. -/
def randomFrom (pr : Option (List BoundSpec)) (mode : RangeQueryRandomMode)
    (wg : Option (Nat → List Int → List Int → List Int)) (fuel : Nat) :
    Nat → Nat → RNG → Except Err (List Triple) × RNG
  | _, 0, g => (Except.ok [], g)
  | i, k + 1, g =>
    match RangeQuery.get_one_query pr mode wg i fuel g with
    | (Except.error e, g1) => (Except.error e, g1)
    | (Except.ok t, g1) =>
      match randomFrom pr mode wg fuel (i + 1) k g1 with
      | (Except.error e, g2) => (Except.error e, g2)
      | (Except.ok ts, g2) => (Except.ok (t :: ts), g2)

/-- Model of `RangeQuery.random`: `for i in range(num)` calls
`get_one_query` with `index = i + 1`; `range(num)` is empty for `num ≤ 0`. -/
def RangeQuery.random (num : Int) (position_range : Option (List BoundSpec))
    (mode : RangeQueryRandomMode)
    (weight_generator : Option (Nat → List Int → List Int → List Int))
    (fuel : Nat) (g : RNG) : Except Err (List Triple) × RNG :=
  randomFrom position_range mode weight_generator fuel 1 num.toNat g

/-- Model of Python's `sep.join(xs)`. -/
def pyJoin (sep : String) : List String → String
  | [] => ""
  | [s] => s
  | s :: s2 :: ss => s ++ sep ++ pyJoin sep (s2 :: ss)

/-- The line built for one triple inside `to_str`:
`' '.join(l) + ' ' + ' '.join(r)`, plus `' ' + ' '.join(w)` when the weight
list is non-empty. -/
def lineOf (t : Triple) : String :=
  pyJoin " " (t.l.map (fun x => toString x)) ++ " " ++
    pyJoin " " (t.r.map (fun x => toString x)) ++
    (if (t.w.map (fun x => toString x)).length > 0 then
      " " ++ pyJoin " " (t.w.map (fun x => toString x))
    else "")

/-- Model of Python's `s[:-1]` on a string: drop the last character. -/
def pyDropLastChar (s : String) : String := ⟨s.data.dropLast⟩

/-- Model of `RangeQuery.to_str`: accumulate one `'\n'`-terminated line per
triple, then strip the final character. -/
def RangeQuery.to_str (q : List Triple) : String :=
  pyDropLastChar (q.foldl (fun res t => res ++ lineOf t ++ "\n") "")

/-- Model of `RangeQuery.__getitem__` on an integer index (Python list
indexing: negative indices count from the end, out of range is an error). -/
def pyGetItem (q : List Triple) (i : Int) : Option Triple :=
  let j := if i < 0 then i + q.length else i
  if j < 0 then none else q[j.toNat]?

/-- Clamp a Python slice endpoint to `[0, n]`. -/
def pySliceIdx (n : Nat) (i : Int) : Nat :=
  let j := if i < 0 then i + n else i
  if j < 0 then 0 else min j.toNat n

/-- Model of `RangeQuery.__getitem__` on a slice `q[a:b]` (step 1). -/
def pySlice (q : List Triple) (a b : Int) : List Triple :=
  (q.take (pySliceIdx q.length b)).drop (pySliceIdx q.length a)

/-- The validation predicate of `get_one_query` on one normalized
dimension: `lo > hi`, or `mode == LESS and lo == hi`. -/
def dimBad (mode : RangeQueryRandomMode) (b : BoundSpec) : Bool :=
  decide ((normalizeBound b).1 > (normalizeBound b).2) ||
    (decide (mode = RangeQueryRandomMode.LESS) &&
      decide ((normalizeBound b).1 = (normalizeBound b).2))

/-- A concrete random source used to instantiate the theorems: every branch
decision is `false` (small-query branch), every entropy natural is `0`. -/
def gZero : RNG := ⟨fun _ => false, fun _ => 0, 0⟩

/-- A concrete random source whose branch decisions are all `true`
(big-query branch), with entropy naturals `0`. -/
def gOne : RNG := ⟨fun _ => true, fun _ => 0, 0⟩

/-- The per-triple invariant of the spec: `L` and `R` have one entry per
supplied BoundSpec and, in every dimension `i` with normalized bounds
`(lo, hi)`: `lo ≤ L[i] ≤ R[i] ≤ hi`, with `L[i] ≠ R[i]` under `LESS`. -/
def validTriple (pr : Option (List BoundSpec)) (mode : RangeQueryRandomMode)
    (t : Triple) : Prop :=
  t.l.length = (pr.getD [BoundSpec.int 10]).length ∧
  t.r.length = (pr.getD [BoundSpec.int 10]).length ∧
  ∀ i, i < (pr.getD [BoundSpec.int 10]).length →
    (normalizeBound ((pr.getD [BoundSpec.int 10]).getD i (BoundSpec.int 0))).1 ≤
      t.l.getD i 0 ∧
    t.l.getD i 0 ≤ t.r.getD i 0 ∧
    t.r.getD i 0 ≤
      (normalizeBound ((pr.getD [BoundSpec.int 10]).getD i (BoundSpec.int 0))).2 ∧
    (mode = RangeQueryRandomMode.LESS → t.l.getD i 0 ≠ t.r.getD i 0)

/-! ### Basic facts about the draws -/

theorem randint_of_le (lo hi : Int) (g : RNG) (h : lo ≤ hi) :
    randint lo hi g =
      (Except.ok (lo + (g.nats g.pos : Int) % (hi - lo + 1)), g.bump) := by
  simp [randint, h]

theorem randint_mem (lo hi : Int) (g : RNG) (h : lo ≤ hi) :
    ∃ v, randint lo hi g = (Except.ok v, g.bump) ∧ lo ≤ v ∧ v ≤ hi := by
  refine ⟨lo + (g.nats g.pos : Int) % (hi - lo + 1), randint_of_le lo hi g h, ?_, ?_⟩ <;>
  · have h1 : (0 : Int) < hi - lo + 1 := by omega
    have h2 : (0 : Int) ≤ (g.nats g.pos : Int) := Int.ofNat_nonneg _
    have h3 : 0 ≤ (g.nats g.pos : Int) % (hi - lo + 1) := Int.emod_nonneg _ (by omega)
    have h4 : (g.nats g.pos : Int) % (hi - lo + 1) < hi - lo + 1 :=
      Int.emod_lt_of_pos _ h1
    omega

theorem randint_no_error (lo hi : Int) (g : RNG) (h : lo ≤ hi) :
    ∀ e g1, randint lo hi g ≠ (Except.error e, g1) := by
  obtain ⟨v, hv, -, -⟩ := randint_mem lo hi g h
  intro e g1 hcon
  rw [hv] at hcon
  exact absurd (congrArg Prod.fst hcon) (by simp)

theorem drawPair_mem (lo hi : Int) (g : RNG) (h : lo ≤ hi) :
    ∃ l r, drawPair lo hi g = (Except.ok (l, r), g.bump.bump) ∧
      lo ≤ l ∧ l ≤ hi ∧ lo ≤ r ∧ r ≤ hi := by
  obtain ⟨l, hl, hl1, hl2⟩ := randint_mem lo hi g h
  obtain ⟨r, hr, hr1, hr2⟩ := randint_mem lo hi g.bump h
  exact ⟨l, r, by simp [drawPair, hl, hr], hl1, hl2, hr1, hr2⟩

theorem rejectLoop_ok (mode : RangeQueryRandomMode) (lo hi : Int)
    (fuel : Nat) (l r : Int) (g : RNG) (l2 r2 : Int) (g2 : RNG)
    (hlo : lo ≤ hi)
    (hl : lo ≤ l) (hl2 : l ≤ hi) (hr : lo ≤ r) (hr2 : r ≤ hi)
    (h : rejectLoop mode lo hi fuel l r g = (Except.ok (l2, r2), g2)) :
    lo ≤ l2 ∧ l2 ≤ hi ∧ lo ≤ r2 ∧ r2 ≤ hi ∧
      ¬(mode = RangeQueryRandomMode.LESS ∧ l2 = r2) := by
  induction fuel generalizing l r g with
  | zero =>
    rw [rejectLoop] at h
    by_cases hc : mode = RangeQueryRandomMode.LESS ∧ l = r
    · simp [hc] at h
    · rw [if_neg hc] at h
      obtain ⟨h1, h2⟩ := Prod.mk.injEq .. ▸ h
      obtain ⟨rfl, rfl⟩ : l = l2 ∧ r = r2 := by
        simpa using congrArg (fun x => x) h1
      exact ⟨hl, hl2, hr, hr2, hc⟩
  | succ fuel ih =>
    rw [rejectLoop] at h
    by_cases hc : mode = RangeQueryRandomMode.LESS ∧ l = r
    · rw [if_pos hc] at h
      obtain ⟨a, b, hab, ha1, ha2, hb1, hb2⟩ := drawPair_mem lo hi g hlo
      rw [hab] at h
      exact ih a b g.bump.bump ha1 ha2 hb1 hb2 h
    · rw [if_neg hc] at h
      obtain ⟨h1, h2⟩ := Prod.mk.injEq .. ▸ h
      obtain ⟨rfl, rfl⟩ : l = l2 ∧ r = r2 := by
        simpa using congrArg (fun x => x) h1
      exact ⟨hl, hl2, hr, hr2, hc⟩

theorem bigBranch_characterize (mode : RangeQueryRandomMode) (lo hi : Int)
    (g : RNG) (hlo : lo ≤ hi) (hmode : mode = RangeQueryRandomMode.LESS → lo ≠ hi) :
    ∃ ql l, bigBranch mode lo hi g = (Except.ok (l, l + ql - 1), g.bump.bump) ∧
      max (if mode = RangeQueryRandomMode.LESS then 2 else 1)
        (Int.fdiv (hi - lo + 1) 2) ≤ ql ∧
      ql ≤ hi - lo + 1 ∧ lo ≤ l ∧ l ≤ hi - ql + 1 := by
  have hfloor : (if mode = RangeQueryRandomMode.LESS then 2 else 1 : Int) ≤ hi - lo + 1 := by
    split
    · have := hmode (by assumption)
      omega
    · omega
  have hdiv : Int.fdiv (hi - lo + 1) 2 ≤ hi - lo + 1 := by
    rw [Int.fdiv_eq_ediv _ (by norm_num)]
    exact Int.ediv_le_self _ (by omega)
  have hlb : max (if mode = RangeQueryRandomMode.LESS then 2 else 1)
      (Int.fdiv (hi - lo + 1) 2) ≤ hi - lo + 1 := max_le hfloor hdiv
  obtain ⟨ql, hql, hql1, hql2⟩ := randint_mem _ _ g hlb
  have hlor : lo ≤ hi - ql + 1 := by omega
  obtain ⟨l, hl, hl1, hl2⟩ := randint_mem lo (hi - ql + 1) g.bump hlor
  exact ⟨ql, l, by simp [bigBranch, hql, hl], hql1, hql2, hl1, hl2⟩

theorem bigBranch_ok (mode : RangeQueryRandomMode) (lo hi l r : Int)
    (g g2 : RNG) (hlo : lo ≤ hi)
    (hmode : mode = RangeQueryRandomMode.LESS → lo ≠ hi)
    (h : bigBranch mode lo hi g = (Except.ok (l, r), g2)) :
    lo ≤ l ∧ l ≤ r ∧ r ≤ hi ∧ (mode = RangeQueryRandomMode.LESS → l ≠ r) := by
  obtain ⟨ql, l0, heq, h1, h2, h3, h4⟩ := bigBranch_characterize mode lo hi g hlo hmode
  rw [heq] at h
  obtain ⟨hp, -⟩ := Prod.mk.injEq .. ▸ h
  obtain ⟨rfl, rfl⟩ : l0 = l ∧ l0 + ql - 1 = r := by
    simpa using congrArg (fun x => x) hp
  have hfl : (1 : Int) ≤ ql := by
    have := le_trans (le_max_left (if mode = RangeQueryRandomMode.LESS then 2 else 1)
      (Int.fdiv (hi - lo + 1) 2)) h1
    split at this <;> omega
  refine ⟨h3, by omega, by omega, fun hm => ?_⟩
  have : (2 : Int) ≤ ql := by
    have := le_trans (le_max_left (if mode = RangeQueryRandomMode.LESS then 2 else 1)
      (Int.fdiv (hi - lo + 1) 2)) h1
    rw [if_pos hm] at this
    exact this
  omega

theorem smallBranch_ok (mode : RangeQueryRandomMode) (fuel : Nat)
    (lo hi l r : Int) (g g2 : RNG) (hlo : lo ≤ hi)
    (h : smallBranch mode fuel lo hi g = (Except.ok (l, r), g2)) :
    lo ≤ l ∧ l ≤ r ∧ r ≤ hi ∧ (mode = RangeQueryRandomMode.LESS → l ≠ r) := by
  obtain ⟨a, b, hab, ha1, ha2, hb1, hb2⟩ := drawPair_mem lo hi g hlo
  rw [smallBranch] at h
  split at h
  next e g1 heq =>
    rw [hab] at heq
    simp at heq
  next lr g1 heq =>
    rw [hab] at heq
    simp only [Prod.mk.injEq, Except.ok.injEq] at heq
    obtain ⟨rfl, rfl⟩ := heq
    split at h
    next e g2a heq2 => simp at h
    next lr2 g2a heq2 =>
      obtain ⟨c1, c2, c3, c4, c5⟩ :=
        rejectLoop_ok mode lo hi fuel a b g.bump.bump lr2.1 lr2.2 g2a hlo
          ha1 ha2 hb1 hb2 (by rw [heq2])
      by_cases hgt : lr2.1 > lr2.2
      · rw [if_pos hgt] at h
        simp only [Prod.mk.injEq, Except.ok.injEq] at h
        obtain ⟨⟨h1, h2⟩, -⟩ := h
        subst h1
        subst h2
        exact ⟨c3, by omega, c2, fun hm h2 => c5 ⟨hm, by omega⟩⟩
      · rw [if_neg hgt] at h
        simp only [Prod.mk.injEq, Except.ok.injEq] at h
        obtain ⟨hpp, -⟩ := h
        rw [hpp] at c1 c2 c3 c4 c5 hgt
        simp only at c1 c2 c3 c4 c5 hgt
        exact ⟨c1, by omega, c4, fun hm h2 => c5 ⟨hm, h2⟩⟩

theorem sampleDim_ok (mode : RangeQueryRandomMode) (fuel : Nat)
    (lo hi l r : Int) (g g2 : RNG)
    (h : sampleDim mode fuel lo hi g = (Except.ok (l, r), g2)) :
    lo ≤ l ∧ l ≤ r ∧ r ≤ hi ∧ (mode = RangeQueryRandomMode.LESS → l ≠ r) := by
  rw [sampleDim] at h
  by_cases h1 : lo > hi
  · simp [h1] at h
  rw [if_neg h1] at h
  by_cases h2 : mode = RangeQueryRandomMode.LESS ∧ lo = hi
  · simp [h2] at h
  rw [if_neg h2] at h
  have hmode : mode = RangeQueryRandomMode.LESS → lo ≠ hi := fun hm he => h2 ⟨hm, he⟩
  by_cases h3 : g.bits g.pos
  · rw [if_pos h3] at h
    exact bigBranch_ok mode lo hi l r g.bump g2 (by omega) hmode h
  · rw [if_neg h3] at h
    exact smallBranch_ok mode fuel lo hi l r g.bump g2 (by omega) h

/-! ### The dimension loop and the batch loop -/

theorem sampleDims_ok (mode : RangeQueryRandomMode) (fuel : Nat) :
    ∀ (bs : List BoundSpec) (g g2 : RNG) (ls rs : List Int),
    sampleDims mode fuel bs g = (Except.ok (ls, rs), g2) →
    ls.length = bs.length ∧ rs.length = bs.length ∧
      ∀ i, i < bs.length →
        (normalizeBound (bs.getD i (BoundSpec.int 0))).1 ≤ ls.getD i 0 ∧
        ls.getD i 0 ≤ rs.getD i 0 ∧
        rs.getD i 0 ≤ (normalizeBound (bs.getD i (BoundSpec.int 0))).2 ∧
        (mode = RangeQueryRandomMode.LESS → ls.getD i 0 ≠ rs.getD i 0) := by
  intro bs
  induction bs with
  | nil =>
    intro g g2 ls rs h
    rw [sampleDims] at h
    simp only [Prod.mk.injEq, Except.ok.injEq] at h
    obtain ⟨⟨rfl, rfl⟩, -⟩ := h
    exact ⟨rfl, rfl, fun i hi => absurd hi (by simp)⟩
  | cons b bs ih =>
    intro g g2 ls rs h
    rw [sampleDims] at h
    split at h
    next e g1 heq => simp at h
    next lr g1 heq =>
      split at h
      next e g2a heq2 => simp at h
      next lsrs g2a heq2 =>
        simp only [Prod.mk.injEq, Except.ok.injEq] at h
        obtain ⟨⟨rfl, rfl⟩, -⟩ := h
        obtain ⟨d1, d2, d3, d4⟩ :=
          sampleDim_ok mode fuel (normalizeBound b).1 (normalizeBound b).2
            lr.1 lr.2 g g1 (by rw [heq])
        obtain ⟨e1, e2, e3⟩ := ih g1 g2a lsrs.1 lsrs.2 (by rw [heq2])
        refine ⟨by simp [e1], by simp [e2], fun i hi => ?_⟩
        cases i with
        | zero => simpa using ⟨d1, d2, d3, d4⟩
        | succ j =>
          simp only [List.getD_cons_succ]
          exact e3 j (by simpa using hi)

theorem get_one_query_ok (pr : Option (List BoundSpec))
    (mode : RangeQueryRandomMode)
    (wg : Option (Nat → List Int → List Int → List Int))
    (index fuel : Nat) (g g2 : RNG) (t : Triple)
    (h : RangeQuery.get_one_query pr mode wg index fuel g = (Except.ok t, g2)) :
    t.l.length = (pr.getD [BoundSpec.int 10]).length ∧
    t.r.length = (pr.getD [BoundSpec.int 10]).length ∧
    (∀ i, i < (pr.getD [BoundSpec.int 10]).length →
      (normalizeBound ((pr.getD [BoundSpec.int 10]).getD i (BoundSpec.int 0))).1 ≤
        t.l.getD i 0 ∧
      t.l.getD i 0 ≤ t.r.getD i 0 ∧
      t.r.getD i 0 ≤
        (normalizeBound ((pr.getD [BoundSpec.int 10]).getD i (BoundSpec.int 0))).2 ∧
      (mode = RangeQueryRandomMode.LESS → t.l.getD i 0 ≠ t.r.getD i 0)) ∧
    (wg = none → t.w = []) ∧
    (∀ f, wg = some f → t.w = f index t.l t.r) := by
  rw [RangeQuery.get_one_query] at h
  split at h
  next e g1 heq => simp at h
  next lsrs g1 heq =>
    obtain ⟨e1, e2, e3⟩ :=
      sampleDims_ok mode fuel (pr.getD [BoundSpec.int 10]) g g1 lsrs.1 lsrs.2
        (by rw [heq])
    cases wg with
    | none =>
      simp only [Prod.mk.injEq, Except.ok.injEq] at h
      obtain ⟨rfl, -⟩ := h
      exact ⟨e1, e2, e3, fun _ => rfl, fun f hf => by simp at hf⟩
    | some f =>
      simp only [Prod.mk.injEq, Except.ok.injEq] at h
      obtain ⟨rfl, -⟩ := h
      exact ⟨e1, e2, e3, fun hc => by simp at hc,
        fun f2 hf => by rw [Option.some.injEq] at hf; rw [← hf]⟩

theorem randomFrom_elem (pr : Option (List BoundSpec))
    (mode : RangeQueryRandomMode)
    (wg : Option (Nat → List Int → List Int → List Int)) (fuel : Nat) :
    ∀ (k i : Nat) (g g2 : RNG) (ts : List Triple),
    randomFrom pr mode wg fuel i k g = (Except.ok ts, g2) →
    ts.length = k ∧
      ∀ j, j < ts.length →
        ∃ g0 g1, RangeQuery.get_one_query pr mode wg (i + j) fuel g0 =
          (Except.ok (ts.getD j ⟨[], [], []⟩), g1) := by
  intro k
  induction k with
  | zero =>
    intro i g g2 ts h
    rw [randomFrom] at h
    simp only [Prod.mk.injEq, Except.ok.injEq] at h
    obtain ⟨rfl, -⟩ := h
    exact ⟨rfl, fun j hj => absurd hj (by simp)⟩
  | succ k ih =>
    intro i g g2 ts h
    rw [randomFrom] at h
    split at h
    next e g1 heq => simp at h
    next t g1 heq =>
      split at h
      next e g2a heq2 => simp at h
      next ts2 g2a heq2 =>
        simp only [Prod.mk.injEq, Except.ok.injEq] at h
        obtain ⟨rfl, -⟩ := h
        obtain ⟨f1, f2⟩ := ih (i + 1) g1 g2a ts2 heq2
        refine ⟨by simp [f1], fun j hj => ?_⟩
        cases j with
        | zero => exact ⟨g, g1, by simpa using heq⟩
        | succ j2 =>
          obtain ⟨g0, g3, hg⟩ := f2 j2 (by simpa using hj)
          refine ⟨g0, g3, ?_⟩
          have : i + 1 + j2 = i + (j2 + 1) := by omega
          rw [this] at hg
          simpa using hg

/-! ### Claim theorems -/

/-- Claim C1: every triple returned by a successful `get_one_query`, and
every triple of a successful `RangeQuery.random` batch, satisfies
`lo ≤ L[i] ≤ R[i] ≤ hi` in every dimension (with `L[i] ≠ R[i]` under
`LESS`), and `L` and `R` have length equal to the number of BoundSpecs. -/
theorem c1_triples_valid :
    (∀ pr mode wg index fuel g g2 t,
      RangeQuery.get_one_query pr mode wg index fuel g = (Except.ok t, g2) →
      validTriple pr mode t) ∧
    (∀ num pr mode wg fuel g g2 ts,
      RangeQuery.random num pr mode wg fuel g = (Except.ok ts, g2) →
      ∀ t ∈ ts, validTriple pr mode t) := by
  have hone : ∀ pr mode wg index fuel g g2 t,
      RangeQuery.get_one_query pr mode wg index fuel g = (Except.ok t, g2) →
      validTriple pr mode t := by
    intro pr mode wg index fuel g g2 t h
    obtain ⟨e1, e2, e3, -, -⟩ := get_one_query_ok pr mode wg index fuel g g2 t h
    exact ⟨e1, e2, e3⟩
  refine ⟨hone, ?_⟩
  intro num pr mode wg fuel g g2 ts h t ht
  obtain ⟨hlen, helem⟩ :=
    randomFrom_elem pr mode wg fuel num.toNat 1 g g2 ts h
  obtain ⟨j, hj, hjt⟩ := List.mem_iff_getElem.mp ht
  obtain ⟨g0, g1, hg⟩ := helem j hj
  rw [List.getD_eq_getElem _ _ hj, hjt] at hg
  exact hone pr mode wg (1 + j) fuel g0 g1 t hg

/-- Claim C1 witness at a concrete input. -/
theorem c1_triples_valid_witness :
    validTriple (some [BoundSpec.pair 3 7]) RangeQueryRandomMode.ALLOW_EQUAL
      ⟨[3], [3], []⟩ :=
  c1_triples_valid.2 1 (some [BoundSpec.pair 3 7])
    RangeQueryRandomMode.ALLOW_EQUAL none 0 gZero gZero.bump.bump.bump
    [⟨[3], [3], []⟩] rfl ⟨[3], [3], []⟩ (List.mem_singleton.mpr rfl)

/-- Claim C3: a successful `RangeQuery.random num ...` batch has exactly
`num` triples (for `num ≥ 1` it is the first generated triple followed by
the remaining ones, in generation order), readable by integer index and by
slice. -/
theorem c3_count_and_access (num : Int) (pr : Option (List BoundSpec))
    (mode : RangeQueryRandomMode)
    (wg : Option (Nat → List Int → List Int → List Int)) (fuel : Nat)
    (g g2 : RNG) (ts : List Triple)
    (h : RangeQuery.random num pr mode wg fuel g = (Except.ok ts, g2)) :
    ts.length = num.toNat ∧
    (1 ≤ num →
      ∃ t ts2 g1,
        RangeQuery.get_one_query pr mode wg 1 fuel g = (Except.ok t, g1) ∧
        randomFrom pr mode wg fuel 2 (num.toNat - 1) g1 = (Except.ok ts2, g2) ∧
        ts = t :: ts2) ∧
    (∀ i : Nat, i < ts.length →
      pyGetItem ts i = some (ts.getD i ⟨[], [], []⟩)) ∧
    (∀ a b : Nat, a ≤ b → b ≤ ts.length →
      pySlice ts a b = (ts.drop a).take (b - a)) := by
  refine ⟨(randomFrom_elem pr mode wg fuel num.toNat 1 g g2 ts h).1, ?_, ?_, ?_⟩
  · intro hnum
    rw [RangeQuery.random] at h
    rw [show num.toNat = (num.toNat - 1) + 1 from by omega] at h
    rw [randomFrom] at h
    split at h
    next e g1 heq => simp at h
    next t g1 heq =>
      split at h
      next e g2a heq2 => simp at h
      next ts2 g2a heq2 =>
        simp only [Prod.mk.injEq, Except.ok.injEq] at h
        obtain ⟨rfl, rfl⟩ := h
        exact ⟨t, ts2, g1, heq, heq2, rfl⟩
  · intro i hi
    have h0 : ¬((i : Int) < 0) := by omega
    simp only [pyGetItem, h0, if_false, Int.toNat_ofNat]
    rw [List.getElem?_eq_getElem hi, List.getD_eq_getElem _ _ hi]
  · intro a b hab hb
    have ha0 : ¬((a : Int) < 0) := by omega
    have hb0 : ¬((b : Int) < 0) := by omega
    have hma : min (a : Int).toNat ts.length = a := by
      simp only [Int.toNat_ofNat]
      omega
    have hmb : min (b : Int).toNat ts.length = b := by
      simp only [Int.toNat_ofNat]
      omega
    simp only [pySlice, pySliceIdx, ha0, if_false, hb0, hma, hmb]
    rw [List.take_drop, show a + (b - a) = b from by omega]

/-- Claim C3 witness: the count at a concrete successful call. -/
theorem c3_count_and_access_witness :
    ([⟨[3], [3], []⟩, ⟨[3], [3], []⟩] : List Triple).length = (2 : Int).toNat :=
  (c3_count_and_access 2 (some [BoundSpec.pair 3 3])
    RangeQueryRandomMode.ALLOW_EQUAL none 0 gZero
    gZero.bump.bump.bump.bump.bump.bump
    [⟨[3], [3], []⟩, ⟨[3], [3], []⟩] rfl).1

/-- Claim C7: the `i`-th generated triple (1-based `i`) carries weight
`weight_generator i L R`, computed from the triple's own `L` and `R`
vectors, when a generator is supplied; with no generator every weight is
the empty marker. -/
theorem c7_weights (num : Int) (pr : Option (List BoundSpec))
    (mode : RangeQueryRandomMode) (fuel : Nat) (g g2 : RNG) :
    (∀ ts, RangeQuery.random num pr mode none fuel g = (Except.ok ts, g2) →
      ∀ t ∈ ts, t.w = []) ∧
    (∀ f ts,
      RangeQuery.random num pr mode (some f) fuel g = (Except.ok ts, g2) →
      ∀ j, j < ts.length →
        (ts.getD j ⟨[], [], []⟩).w =
          f (j + 1) (ts.getD j ⟨[], [], []⟩).l (ts.getD j ⟨[], [], []⟩).r) := by
  constructor
  · intro ts h t ht
    obtain ⟨-, helem⟩ := randomFrom_elem pr mode none fuel num.toNat 1 g g2 ts h
    obtain ⟨j, hj, hjt⟩ := List.mem_iff_getElem.mp ht
    obtain ⟨g0, g1, hg⟩ := helem j hj
    rw [List.getD_eq_getElem _ _ hj, hjt] at hg
    obtain ⟨-, -, -, hw, -⟩ :=
      get_one_query_ok pr mode none (1 + j) fuel g0 g1 t hg
    exact hw rfl
  · intro f ts h j hj
    obtain ⟨-, helem⟩ :=
      randomFrom_elem pr mode (some f) fuel num.toNat 1 g g2 ts h
    obtain ⟨g0, g1, hg⟩ := helem j hj
    obtain ⟨-, -, -, -, hw⟩ :=
      get_one_query_ok pr mode (some f) (1 + j) fuel g0 g1 _ hg
    rw [show 1 + j = j + 1 from by omega] at hw
    exact hw f rfl

/-- Claim C7 witness: a concrete call with the weight generator
`fun i l r => i :: l ++ r` produces weight `[1, 3, 3]` for the first
query. -/
theorem c7_weights_witness :
    (([⟨[3], [3], [1, 3, 3]⟩] : List Triple).getD 0 ⟨[], [], []⟩).w =
      (fun (i : Nat) (l r : List Int) => (i : Int) :: l ++ r) (0 + 1)
        (([⟨[3], [3], [1, 3, 3]⟩] : List Triple).getD 0 ⟨[], [], []⟩).l
        (([⟨[3], [3], [1, 3, 3]⟩] : List Triple).getD 0 ⟨[], [], []⟩).r :=
  (c7_weights 1 (some [BoundSpec.pair 3 3]) RangeQueryRandomMode.ALLOW_EQUAL
    0 gZero gZero.bump.bump.bump).2
    (fun (i : Nat) (l r : List Int) => (i : Int) :: l ++ r)
    [⟨[3], [3], [1, 3, 3]⟩] rfl 0 (by decide)

/-- Claim C6: per-dimension normalization maps an integer bound `u` to
`(1, u)`, a one-element bound `(x,)` to `(1, x)`, a pair `(lo, hi)` to
itself, and an unset `position_range` defaults to the single dimension
`[1, 10]`. -/
theorem c6_normalization (u x lo hi : Int) :
    normalizeBound (BoundSpec.int u) = (1, u) ∧
    normalizeBound (BoundSpec.one x) = (1, x) ∧
    normalizeBound (BoundSpec.pair lo hi) = (lo, hi) ∧
    ∀ mode wg index fuel g,
      RangeQuery.get_one_query none mode wg index fuel g =
        RangeQuery.get_one_query (some [BoundSpec.pair 1 10]) mode wg index
          fuel g :=
  ⟨rfl, rfl, rfl, fun _ _ _ _ _ => rfl⟩

/-! ### Error classification -/

theorem rejectLoop_error (mode : RangeQueryRandomMode) (lo hi : Int)
    (hlo : lo ≤ hi) :
    ∀ (fuel : Nat) (l r : Int) (g g2 : RNG) (e : Err),
    rejectLoop mode lo hi fuel l r g = (Except.error e, g2) →
    e = Err.fuelOut := by
  intro fuel
  induction fuel with
  | zero =>
    intro l r g g2 e h
    rw [rejectLoop] at h
    split at h
    · simp only [Prod.mk.injEq, Except.error.injEq] at h
      exact h.1.symm
    · simp at h
  | succ fuel ih =>
    intro l r g g2 e h
    rw [rejectLoop] at h
    split at h
    · obtain ⟨a, b, hab, -, -, -, -⟩ := drawPair_mem lo hi g hlo
      rw [hab] at h
      exact ih a b g.bump.bump g2 e h
    · simp at h

theorem smallBranch_error (mode : RangeQueryRandomMode) (fuel : Nat)
    (lo hi : Int) (g g2 : RNG) (e : Err) (hlo : lo ≤ hi)
    (h : smallBranch mode fuel lo hi g = (Except.error e, g2)) :
    e = Err.fuelOut := by
  obtain ⟨a, b, hab, -, -, -, -⟩ := drawPair_mem lo hi g hlo
  rw [smallBranch] at h
  split at h
  next e2 g1 heq =>
    rw [hab] at heq
    simp at heq
  next lr g1 heq =>
    split at h
    next e2 g2a heq2 =>
      rw [hab] at heq
      simp only [Prod.mk.injEq, Except.ok.injEq] at heq
      obtain ⟨rfl, rfl⟩ := heq
      simp only [Prod.mk.injEq, Except.error.injEq] at h
      rw [← h.1]
      exact rejectLoop_error mode lo hi hlo fuel a b g.bump.bump g2a e2 heq2
    next lr2 g2a heq2 => simp at h

theorem bigBranch_no_error (mode : RangeQueryRandomMode) (lo hi : Int)
    (g g2 : RNG) (e : Err) (hlo : lo ≤ hi)
    (hne : mode = RangeQueryRandomMode.LESS → lo ≠ hi)
    (h : bigBranch mode lo hi g = (Except.error e, g2)) : False := by
  obtain ⟨ql, l0, heq, -, -, -, -⟩ := bigBranch_characterize mode lo hi g hlo hne
  rw [heq] at h
  simpa using congrArg (fun p => p.1) h

theorem sampleDim_error_classify (mode : RangeQueryRandomMode) (fuel : Nat)
    (lo hi : Int) (g g2 : RNG) (e : Err)
    (h : sampleDim mode fuel lo hi g = (Except.error e, g2)) :
    (e = Err.upperLessLower ∧ lo > hi ∧ g2 = g) ∨
    (e = Err.lessButEqual ∧ ¬lo > hi ∧
      mode = RangeQueryRandomMode.LESS ∧ lo = hi ∧ g2 = g) ∨
    (e = Err.fuelOut ∧ lo ≤ hi ∧
      (mode = RangeQueryRandomMode.LESS → lo ≠ hi)) := by
  rw [sampleDim] at h
  by_cases h1 : lo > hi
  · rw [if_pos h1] at h
    simp only [Prod.mk.injEq, Except.error.injEq] at h
    exact Or.inl ⟨h.1.symm, h1, h.2.symm⟩
  rw [if_neg h1] at h
  by_cases h2 : mode = RangeQueryRandomMode.LESS ∧ lo = hi
  · rw [if_pos h2] at h
    simp only [Prod.mk.injEq, Except.error.injEq] at h
    exact Or.inr (Or.inl ⟨h.1.symm, h1, h2.1, h2.2, h.2.symm⟩)
  rw [if_neg h2] at h
  have hlo : lo ≤ hi := by omega
  have hne : mode = RangeQueryRandomMode.LESS → lo ≠ hi :=
    fun hm he => h2 ⟨hm, he⟩
  by_cases h3 : g.bits g.pos
  · rw [if_pos h3] at h
    exact absurd h (fun hh =>
      bigBranch_no_error mode lo hi g.bump g2 e hlo hne hh)
  · rw [if_neg h3] at h
    exact Or.inr (Or.inr
      ⟨smallBranch_error mode fuel lo hi g.bump g2 e hlo h, hlo, hne⟩)

theorem sampleDim_invalid (mode : RangeQueryRandomMode) (fuel : Nat)
    (lo hi : Int) (g : RNG) :
    (lo > hi →
      sampleDim mode fuel lo hi g = (Except.error Err.upperLessLower, g)) ∧
    (¬lo > hi → mode = RangeQueryRandomMode.LESS → lo = hi →
      sampleDim mode fuel lo hi g = (Except.error Err.lessButEqual, g)) := by
  constructor
  · intro h1
    rw [sampleDim, if_pos h1]
  · intro h1 h2 h3
    rw [sampleDim, if_neg h1, if_pos ⟨h2, h3⟩]

/-- Claim C4 counterexample: with bounds `[(1,1), (5,4)]` the call raises
the `InvalidRange` error for the second dimension only after three draws
(one branch decision and two `randint`s) were consumed sampling the first
dimension, so the random source is NOT in its entry state when the error
is raised. -/
theorem c4_counterexample :
    (RangeQuery.get_one_query
        (some [BoundSpec.pair 1 1, BoundSpec.pair 5 4])
        RangeQueryRandomMode.ALLOW_EQUAL none 1 0 gZero).1 =
      Except.error Err.upperLessLower ∧
    (RangeQuery.get_one_query
        (some [BoundSpec.pair 1 1, BoundSpec.pair 5 4])
        RangeQueryRandomMode.ALLOW_EQUAL none 1 0 gZero).2.pos = 3 ∧
    gZero.pos = 0 :=
  ⟨rfl, rfl, rfl⟩

/-- Claim C4 (amended): a validation failure of a dimension is raised
before any random draw for that dimension (the state returned with the
error is exactly the state at which that dimension's processing started),
and the only errors that leave the state untouched in this way are the two
validation errors; earlier valid dimensions may already have consumed
draws, and no output is produced (the call returns only the error). -/
theorem c4_validation_before_dim_draws (mode : RangeQueryRandomMode)
    (fuel : Nat) (lo hi : Int) (g : RNG) :
    ((lo > hi ∨ (mode = RangeQueryRandomMode.LESS ∧ lo = hi)) →
      ∃ e, sampleDim mode fuel lo hi g = (Except.error e, g) ∧
        (e = Err.upperLessLower ∨ e = Err.lessButEqual)) ∧
    (∀ e g2, sampleDim mode fuel lo hi g = (Except.error e, g2) →
      (e = Err.upperLessLower ∨ e = Err.lessButEqual) → g2 = g) := by
  constructor
  · intro hbad
    by_cases h1 : lo > hi
    · exact ⟨Err.upperLessLower,
        (sampleDim_invalid mode fuel lo hi g).1 h1, Or.inl rfl⟩
    · obtain ⟨hm, he⟩ : mode = RangeQueryRandomMode.LESS ∧ lo = hi := by
        rcases hbad with hb | hb
        · exact absurd hb h1
        · exact hb
      exact ⟨Err.lessButEqual,
        (sampleDim_invalid mode fuel lo hi g).2 h1 hm he, Or.inr rfl⟩
  · intro e g2 h hval
    rcases sampleDim_error_classify mode fuel lo hi g g2 e h with
      ⟨-, -, hg⟩ | ⟨-, -, -, -, hg⟩ | ⟨hf, -, -⟩
    · exact hg
    · exact hg
    · rcases hval with hv | hv <;> simp [hf] at hv

/-- Claim C4 witness: invalid bounds `(5, 4)` make `sampleDim` fail with
the state unchanged. -/
theorem c4_validation_before_dim_draws_witness :
    ∃ e, sampleDim RangeQueryRandomMode.ALLOW_EQUAL 0 5 4 gZero =
      (Except.error e, gZero) ∧
      (e = Err.upperLessLower ∨ e = Err.lessButEqual) :=
  (c4_validation_before_dim_draws RangeQueryRandomMode.ALLOW_EQUAL
    0 5 4 gZero).1 (Or.inl (by decide))

/-- Claim C9: once a dimension's normalized bounds pass validation
(`lo ≤ hi`, and `lo ≠ hi` under `LESS`), every `randint` range used while
sampling that dimension is non-empty — `max(lower_floor, span // 2) ≤ span`
and `lo ≤ hi - len + 1` in the big-query branch, `lo ≤ hi` in the
small-query branch — so sampling never fails: the only possible failure
after validation is the model's marker for a non-terminating rejection
loop. -/
theorem c9_no_empty_draw (mode : RangeQueryRandomMode) (fuel : Nat)
    (lo hi : Int) (g : RNG) (hlo : lo ≤ hi)
    (hne : mode = RangeQueryRandomMode.LESS → lo ≠ hi) :
    (∀ e g2, sampleDim mode fuel lo hi g = (Except.error e, g2) →
      e = Err.fuelOut) ∧
    max (if mode = RangeQueryRandomMode.LESS then 2 else 1)
      (Int.fdiv (hi - lo + 1) 2) ≤ hi - lo + 1 ∧
    (∀ len : Int,
      max (if mode = RangeQueryRandomMode.LESS then 2 else 1)
        (Int.fdiv (hi - lo + 1) 2) ≤ len → len ≤ hi - lo + 1 →
      lo ≤ hi - len + 1) := by
  refine ⟨?_, ?_, fun len h1 h2 => by omega⟩
  · intro e g2 h
    rcases sampleDim_error_classify mode fuel lo hi g g2 e h with
      ⟨-, hgt, -⟩ | ⟨-, -, hm, he, -⟩ | ⟨hf, -, -⟩
    · omega
    · exact absurd he (hne hm)
    · exact hf
  · have hfloor : (if mode = RangeQueryRandomMode.LESS then 2 else 1 : Int) ≤
        hi - lo + 1 := by
      split
      · have := hne (by assumption)
        omega
      · omega
    have hdiv : Int.fdiv (hi - lo + 1) 2 ≤ hi - lo + 1 := by
      rw [Int.fdiv_eq_ediv _ (by norm_num)]
      exact Int.ediv_le_self _ (by omega)
    exact max_le hfloor hdiv

/-- Claim C9 witness at a concrete validated dimension. -/
theorem c9_no_empty_draw_witness :
    max (if RangeQueryRandomMode.LESS = RangeQueryRandomMode.LESS then 2 else 1)
      (Int.fdiv ((5 : Int) - 1 + 1) 2) ≤ (5 : Int) - 1 + 1 :=
  (c9_no_empty_draw RangeQueryRandomMode.LESS 0 1 5 gZero (by decide)
    (fun _ => by decide)).2.1

/-- Claim C5: in the big-query branch with validated normalized bounds,
every success has the form `R = L + len - 1` with
`min_len = max(lower_floor, span // 2) ≤ len ≤ span` and
`lo ≤ L ≤ hi - len + 1` (hence `min_len ≤ R - L + 1 ≤ span`), and every
`(len, L)` in that rectangle is produced by some state of the random
source — the draws range over exactly `[min_len, span]` and
`[lo, hi - len + 1]`. -/
theorem c5_big_query_branch (mode : RangeQueryRandomMode) (lo hi : Int)
    (hlo : lo ≤ hi) (hne : mode = RangeQueryRandomMode.LESS → lo ≠ hi) :
    (∀ g l r g2, bigBranch mode lo hi g = (Except.ok (l, r), g2) →
      ∃ len, r = l + len - 1 ∧
        max (if mode = RangeQueryRandomMode.LESS then 2 else 1)
          (Int.fdiv (hi - lo + 1) 2) ≤ len ∧
        len ≤ hi - lo + 1 ∧ lo ≤ l ∧ l ≤ hi - len + 1 ∧
        max (if mode = RangeQueryRandomMode.LESS then 2 else 1)
          (Int.fdiv (hi - lo + 1) 2) ≤ r - l + 1 ∧
        r - l + 1 ≤ hi - lo + 1) ∧
    (∀ len l,
      max (if mode = RangeQueryRandomMode.LESS then 2 else 1)
        (Int.fdiv (hi - lo + 1) 2) ≤ len → len ≤ hi - lo + 1 →
      lo ≤ l → l ≤ hi - len + 1 →
      ∃ g g2, bigBranch mode lo hi g = (Except.ok (l, l + len - 1), g2)) := by
  constructor
  · intro g l r g2 h
    obtain ⟨ql, l0, heq, h1, h2, h3, h4⟩ :=
      bigBranch_characterize mode lo hi g hlo hne
    rw [heq] at h
    simp only [Prod.mk.injEq, Except.ok.injEq] at h
    obtain ⟨⟨rfl, rfl⟩, -⟩ := h
    exact ⟨ql, rfl, h1, h2, h3, h4, by omega, by omega⟩
  · intro len l h1 h2 h3 h4
    set lb := max (if mode = RangeQueryRandomMode.LESS then 2 else 1)
      (Int.fdiv (hi - lo + 1) 2) with hlb
    refine ⟨⟨fun _ => true,
      fun p => if p = 0 then (len - lb).toNat else (l - lo).toNat, 0⟩, ?_⟩
    have hlble : lb ≤ hi - lo + 1 := le_trans h1 h2
    have e1 : randint lb (hi - lo + 1)
        ⟨fun _ => true,
          fun p => if p = 0 then (len - lb).toNat else (l - lo).toNat, 0⟩ =
        (Except.ok len,
          RNG.bump ⟨fun _ => true,
            fun p => if p = 0 then (len - lb).toNat else (l - lo).toNat, 0⟩) := by
      rw [randint_of_le _ _ _ hlble]
      simp only [Prod.mk.injEq, Except.ok.injEq]
      refine ⟨?_, trivial⟩
      show lb + (((if (0 : Nat) = 0 then (len - lb).toNat else (l - lo).toNat) :
        Nat) : Int) % (hi - lo + 1 - lb + 1) = len
      rw [if_pos rfl, Int.toNat_of_nonneg (by omega),
        Int.emod_eq_of_lt (by omega) (by omega)]
      omega
    have e2 : randint lo (hi - len + 1)
        (RNG.bump ⟨fun _ => true,
          fun p => if p = 0 then (len - lb).toNat else (l - lo).toNat, 0⟩) =
        (Except.ok l,
          (RNG.bump ⟨fun _ => true,
            fun p => if p = 0 then (len - lb).toNat else (l - lo).toNat,
            0⟩).bump) := by
      rw [randint_of_le _ _ _ (by omega)]
      simp only [Prod.mk.injEq, Except.ok.injEq]
      refine ⟨?_, trivial⟩
      show lo + (((if (1 : Nat) = 0 then (len - lb).toNat else (l - lo).toNat) :
        Nat) : Int) % (hi - len + 1 - lo + 1) = l
      rw [if_neg (by omega), Int.toNat_of_nonneg (by omega),
        Int.emod_eq_of_lt (by omega) (by omega)]
      omega
    refine ⟨(RNG.bump (RNG.bump ⟨fun _ => true,
      fun p => if p = 0 then (len - lb).toNat else (l - lo).toNat, 0⟩)), ?_⟩
    rw [bigBranch]
    simp only [← hlb, e1, e2]

/-- Claim C5 witness: with bounds `(1, 2)` under `ALLOW_EQUAL`, the target
`len = 2, L = 1` is attainable in the big-query branch. -/
theorem c5_big_query_branch_witness :
    ∃ g g2, bigBranch RangeQueryRandomMode.ALLOW_EQUAL 1 2 g =
      (Except.ok (1, 1 + 2 - 1), g2) :=
  (c5_big_query_branch RangeQueryRandomMode.ALLOW_EQUAL 1 2 (by decide)
    (fun h => by decide)).2 2 1 (by decide) (by decide) (by decide) (by decide)

theorem sampleDims_error_classify (mode : RangeQueryRandomMode) (fuel : Nat) :
    ∀ (bs : List BoundSpec) (g g2 : RNG) (e : Err),
    sampleDims mode fuel bs g = (Except.error e, g2) →
    e ≠ Err.randintEmpty ∧
      (e ≠ Err.fuelOut → ∃ b ∈ bs, dimBad mode b = true) := by
  intro bs
  induction bs with
  | nil =>
    intro g g2 e h
    rw [sampleDims] at h
    simp at h
  | cons b bs ih =>
    intro g g2 e h
    rw [sampleDims] at h
    split at h
    next e2 g1 heq =>
      simp only [Prod.mk.injEq, Except.error.injEq] at h
      obtain ⟨he, -⟩ := h
      subst he
      rcases sampleDim_error_classify mode fuel _ _ g g1 e2 heq with
        ⟨he2, hgt, -⟩ | ⟨he2, -, hm, hq, -⟩ | ⟨he2, -, -⟩
      · subst he2
        refine ⟨by simp, fun _ => ⟨b, List.mem_cons_self b bs, ?_⟩⟩
        simp [dimBad, hgt]
      · subst he2
        refine ⟨by simp, fun _ => ⟨b, List.mem_cons_self b bs, ?_⟩⟩
        simp [dimBad, hm, hq]
      · subst he2
        exact ⟨by simp, fun hc => absurd rfl hc⟩
    next lr g1 heq =>
      split at h
      next e2 g2a heq2 =>
        simp only [Prod.mk.injEq, Except.error.injEq] at h
        obtain ⟨he, -⟩ := h
        subst he
        obtain ⟨c1, c2⟩ := ih g1 g2a e2 heq2
        exact ⟨c1, fun hf => by
          obtain ⟨b2, hmem, hbad⟩ := c2 hf
          exact ⟨b2, List.mem_cons_of_mem b hmem, hbad⟩⟩
      next lsrs g2a heq2 => simp at h

theorem sampleDims_bad_error (mode : RangeQueryRandomMode) (fuel : Nat) :
    ∀ (bs : List BoundSpec), (∃ b ∈ bs, dimBad mode b = true) → ∀ g,
    ∃ e g2, sampleDims mode fuel bs g = (Except.error e, g2) := by
  intro bs
  induction bs with
  | nil =>
    intro h
    obtain ⟨b, hb, -⟩ := h
    simp at hb
  | cons b bs ih =>
    intro h g
    by_cases hb : dimBad mode b = true
    · have hcases : (normalizeBound b).1 > (normalizeBound b).2 ∨
          (mode = RangeQueryRandomMode.LESS ∧
            (normalizeBound b).1 = (normalizeBound b).2) := by
        simpa [dimBad, Bool.or_eq_true, Bool.and_eq_true,
          decide_eq_true_eq] using hb
      by_cases hgt : (normalizeBound b).1 > (normalizeBound b).2
      · exact ⟨Err.upperLessLower, g, by
          rw [sampleDims, (sampleDim_invalid mode fuel _ _ g).1 hgt]⟩
      · obtain ⟨hm, hq⟩ : mode = RangeQueryRandomMode.LESS ∧
            (normalizeBound b).1 = (normalizeBound b).2 := by
          rcases hcases with hc | hc
          · exact absurd hc hgt
          · exact hc
        exact ⟨Err.lessButEqual, g, by
          rw [sampleDims, (sampleDim_invalid mode fuel _ _ g).2 hgt hm hq]⟩
    · have htail : ∃ b2 ∈ bs, dimBad mode b2 = true := by
        obtain ⟨b2, hmem, hbad⟩ := h
        rcases List.mem_cons.mp hmem with rfl | hmem2
        · exact absurd hbad hb
        · exact ⟨b2, hmem2, hbad⟩
      rcases hS : sampleDim mode fuel (normalizeBound b).1
          (normalizeBound b).2 g with ⟨res, g1⟩
      cases res with
      | error e => exact ⟨e, g1, by rw [sampleDims, hS]⟩
      | ok v =>
        obtain ⟨e, g2, hEq2⟩ := ih htail g1
        refine ⟨e, g2, ?_⟩
        rw [sampleDims]
        simp only [hS, hEq2]

theorem get_one_query_error_classify (pr : Option (List BoundSpec))
    (mode : RangeQueryRandomMode)
    (wg : Option (Nat → List Int → List Int → List Int))
    (index fuel : Nat) (g g2 : RNG) (e : Err)
    (h : RangeQuery.get_one_query pr mode wg index fuel g =
      (Except.error e, g2)) :
    e ≠ Err.randintEmpty ∧
      (e ≠ Err.fuelOut →
        ∃ b ∈ pr.getD [BoundSpec.int 10], dimBad mode b = true) := by
  rw [RangeQuery.get_one_query] at h
  split at h
  next e2 g1 heq =>
    simp only [Prod.mk.injEq, Except.error.injEq] at h
    obtain ⟨he, -⟩ := h
    subst he
    exact sampleDims_error_classify mode fuel _ g g1 e2 heq
  next lsrs g1 heq => cases wg <;> simp at h

theorem get_one_query_bad_error (pr : Option (List BoundSpec))
    (mode : RangeQueryRandomMode)
    (wg : Option (Nat → List Int → List Int → List Int))
    (index fuel : Nat) (g : RNG)
    (hbad : ∃ b ∈ pr.getD [BoundSpec.int 10], dimBad mode b = true) :
    ∃ e g2, RangeQuery.get_one_query pr mode wg index fuel g =
      (Except.error e, g2) := by
  obtain ⟨e, g2, hEq⟩ := sampleDims_bad_error mode fuel _ hbad g
  refine ⟨e, g2, ?_⟩
  rw [RangeQuery.get_one_query]
  simp only [hEq]

theorem randomFrom_error_classify (pr : Option (List BoundSpec))
    (mode : RangeQueryRandomMode)
    (wg : Option (Nat → List Int → List Int → List Int)) (fuel : Nat) :
    ∀ (k i : Nat) (g g2 : RNG) (e : Err),
    randomFrom pr mode wg fuel i k g = (Except.error e, g2) →
    e ≠ Err.randintEmpty ∧
      (e ≠ Err.fuelOut →
        ∃ b ∈ pr.getD [BoundSpec.int 10], dimBad mode b = true) := by
  intro k
  induction k with
  | zero =>
    intro i g g2 e h
    rw [randomFrom] at h
    simp at h
  | succ k ih =>
    intro i g g2 e h
    rw [randomFrom] at h
    split at h
    next e2 g1 heq =>
      simp only [Prod.mk.injEq, Except.error.injEq] at h
      obtain ⟨he, -⟩ := h
      subst he
      exact get_one_query_error_classify pr mode wg i fuel g g1 e2 heq
    next t g1 heq =>
      split at h
      next e2 g2a heq2 =>
        simp only [Prod.mk.injEq, Except.error.injEq] at h
        obtain ⟨he, -⟩ := h
        subst he
        exact ih (i + 1) g1 g2a e2 heq2
      next ts g2a heq2 => simp at h

theorem randomFrom_bad_error (pr : Option (List BoundSpec))
    (mode : RangeQueryRandomMode)
    (wg : Option (Nat → List Int → List Int → List Int))
    (fuel k i : Nat) (g : RNG) (hk : k ≠ 0)
    (hbad : ∃ b ∈ pr.getD [BoundSpec.int 10], dimBad mode b = true) :
    ∃ e g2, randomFrom pr mode wg fuel i k g = (Except.error e, g2) := by
  rcases k with - | m
  · exact absurd rfl hk
  · obtain ⟨e, g2, hEq⟩ := get_one_query_bad_error pr mode wg i fuel g hbad
    refine ⟨e, g2, ?_⟩
    rw [randomFrom]
    simp only [hEq]

theorem rejectLoop_allow_equal (lo hi : Int) (fuel : Nat) (l r : Int)
    (g : RNG) :
    rejectLoop RangeQueryRandomMode.ALLOW_EQUAL lo hi fuel l r g =
      (Except.ok (l, r), g) := by
  cases fuel <;> rw [rejectLoop] <;> rw [if_neg (by simp)]

theorem smallBranch_allow_equal_ok (fuel : Nat) (lo hi : Int) (g : RNG)
    (hlo : lo ≤ hi) :
    ∃ v g2, smallBranch RangeQueryRandomMode.ALLOW_EQUAL fuel lo hi g =
      (Except.ok v, g2) := by
  obtain ⟨a, b, hab, -, -, -, -⟩ := drawPair_mem lo hi g hlo
  refine ⟨if a > b then (b, a) else (a, b), g.bump.bump, ?_⟩
  rw [smallBranch]
  simp only [hab, rejectLoop_allow_equal]

theorem sampleDim_allow_equal_ok (fuel : Nat) (lo hi : Int) (g : RNG)
    (hlo : lo ≤ hi) :
    ∃ v g2, sampleDim RangeQueryRandomMode.ALLOW_EQUAL fuel lo hi g =
      (Except.ok v, g2) := by
  rw [sampleDim, if_neg (by omega), if_neg (by simp)]
  by_cases h3 : g.bits g.pos
  · rw [if_pos h3]
    obtain ⟨ql, l0, heq, -, -, -, -⟩ :=
      bigBranch_characterize RangeQueryRandomMode.ALLOW_EQUAL lo hi g.bump hlo
        (by simp)
    exact ⟨(l0, l0 + ql - 1), g.bump.bump.bump, heq⟩
  · rw [if_neg h3]
    exact smallBranch_allow_equal_ok fuel lo hi g.bump hlo

theorem sampleDims_allow_equal_ok (fuel : Nat) :
    ∀ (bs : List BoundSpec),
    (∀ b ∈ bs, (normalizeBound b).1 ≤ (normalizeBound b).2) → ∀ g,
    ∃ v g2, sampleDims RangeQueryRandomMode.ALLOW_EQUAL fuel bs g =
      (Except.ok v, g2) := by
  intro bs
  induction bs with
  | nil => exact fun _ g => ⟨([], []), g, rfl⟩
  | cons b bs ih =>
    intro hgood g
    obtain ⟨v, g1, hEq⟩ := sampleDim_allow_equal_ok fuel (normalizeBound b).1
      (normalizeBound b).2 g (hgood b (List.mem_cons_self b bs))
    obtain ⟨v2, g2, hEq2⟩ :=
      ih (fun b2 hb2 => hgood b2 (List.mem_cons_of_mem b hb2)) g1
    refine ⟨(v.1 :: v2.1, v.2 :: v2.2), g2, ?_⟩
    rw [sampleDims]
    simp only [hEq, hEq2]

theorem get_one_query_allow_equal_ok (pr : Option (List BoundSpec))
    (wg : Option (Nat → List Int → List Int → List Int))
    (index fuel : Nat) (g : RNG)
    (hgood : ∀ b ∈ pr.getD [BoundSpec.int 10],
      (normalizeBound b).1 ≤ (normalizeBound b).2) :
    ∃ t g2, RangeQuery.get_one_query pr RangeQueryRandomMode.ALLOW_EQUAL wg
      index fuel g = (Except.ok t, g2) := by
  obtain ⟨v, g2, hEq⟩ := sampleDims_allow_equal_ok fuel _ hgood g
  cases wg with
  | none =>
    refine ⟨⟨v.1, v.2, []⟩, g2, ?_⟩
    rw [RangeQuery.get_one_query]
    simp only [hEq]
  | some f =>
    refine ⟨⟨v.1, v.2, f index v.1 v.2⟩, g2, ?_⟩
    rw [RangeQuery.get_one_query]
    simp only [hEq]

theorem randomFrom_allow_equal_ok (pr : Option (List BoundSpec))
    (wg : Option (Nat → List Int → List Int → List Int)) (fuel : Nat)
    (hgood : ∀ b ∈ pr.getD [BoundSpec.int 10],
      (normalizeBound b).1 ≤ (normalizeBound b).2) :
    ∀ (k i : Nat) (g : RNG),
    ∃ ts g2, randomFrom pr RangeQueryRandomMode.ALLOW_EQUAL wg fuel i k g =
      (Except.ok ts, g2) := by
  intro k
  induction k with
  | zero => exact fun i g => ⟨[], g, rfl⟩
  | succ k ih =>
    intro i g
    obtain ⟨t, g1, hEq⟩ := get_one_query_allow_equal_ok pr wg i fuel g hgood
    obtain ⟨ts, g2, hEq2⟩ := ih (i + 1) g1
    refine ⟨t :: ts, g2, ?_⟩
    rw [randomFrom]
    simp only [hEq, hEq2]

/-- Claim C2 counterexample: with `num = 0` the generation loop never runs,
so `random` succeeds (and leaves the random source untouched) even though
the bounds `(5, 4)` satisfy the invalid-range condition — the error is NOT
raised "for every num". -/
theorem c2_counterexample :
    RangeQuery.random 0 (some [BoundSpec.pair 5 4])
        RangeQueryRandomMode.ALLOW_EQUAL none 0 gZero =
      (Except.ok [], gZero) ∧
    dimBad RangeQueryRandomMode.ALLOW_EQUAL (BoundSpec.pair 5 4) = true :=
  ⟨rfl, by decide⟩

/-- Claim C2 (amended to `num ≥ 1`): for `num ≥ 1`, whenever some
dimension of the normalized bounds has `lo > hi`, or mode is `LESS` and
some dimension has `lo = hi`, the call fails; every failure that is not
the model's non-termination marker is one of the two `InvalidRange`
validation errors and implies such a dimension exists.  In particular
`random num [(5,4)]` always fails with `InvalidRange` for either mode, and
`random num [(4,4)]` fails exactly when mode is `LESS`. -/
theorem c2_invalid_range (num : Int) (pr : Option (List BoundSpec))
    (mode : RangeQueryRandomMode)
    (wg : Option (Nat → List Int → List Int → List Int)) (fuel : Nat)
    (g : RNG) (hnum : 1 ≤ num) :
    ((∃ b ∈ pr.getD [BoundSpec.int 10], dimBad mode b = true) →
      ∃ e g2, RangeQuery.random num pr mode wg fuel g =
        (Except.error e, g2)) ∧
    (∀ e g2, RangeQuery.random num pr mode wg fuel g = (Except.error e, g2) →
      e ≠ Err.randintEmpty ∧
        (e ≠ Err.fuelOut →
          ∃ b ∈ pr.getD [BoundSpec.int 10], dimBad mode b = true)) ∧
    (RangeQuery.random num (some [BoundSpec.pair 5 4]) mode wg fuel g =
      (Except.error Err.upperLessLower, g)) ∧
    ((∃ e g2, RangeQuery.random num (some [BoundSpec.pair 4 4]) mode wg fuel
        g = (Except.error e, g2)) ↔ mode = RangeQueryRandomMode.LESS) := by
  have hk : num.toNat = (num.toNat - 1) + 1 := by omega
  refine ⟨?_, ?_, ?_, ?_, ?_⟩
  · intro hbad
    rw [RangeQuery.random]
    exact randomFrom_bad_error pr mode wg fuel num.toNat 1 g (by omega) hbad
  · intro e g2 h
    rw [RangeQuery.random] at h
    exact randomFrom_error_classify pr mode wg fuel num.toNat 1 g g2 e h
  · rw [RangeQuery.random, hk]
    exact rfl
  · intro hex
    obtain ⟨e, g2, h⟩ := hex
    cases hmode : mode with
    | LESS => rfl
    | ALLOW_EQUAL =>
      subst hmode
      obtain ⟨ts, g3, hOk⟩ :=
        randomFrom_allow_equal_ok (some [BoundSpec.pair 4 4]) wg fuel
          (by intro b hb; simp at hb; subst hb; decide) num.toNat 1 g
      rw [RangeQuery.random, hOk] at h
      simp at h
  · intro hm
    subst hm
    exact ⟨Err.lessButEqual, g, by rw [RangeQuery.random, hk]; exact rfl⟩

/-- Claim C2 witness at a concrete call. -/
theorem c2_invalid_range_witness :
    RangeQuery.random 1 (some [BoundSpec.pair 5 4])
        RangeQueryRandomMode.ALLOW_EQUAL none 0 gZero =
      (Except.error Err.upperLessLower, gZero) :=
  (c2_invalid_range 1 (some [BoundSpec.pair 5 4])
    RangeQueryRandomMode.ALLOW_EQUAL none 0 gZero (by decide)).2.2.1

/-! ### Textual rendering -/

theorem pyDropLastChar_append_newline (s : String) :
    pyDropLastChar (s ++ "\n") = s := by
  apply String.ext
  show (s ++ "\n").data.dropLast = s.data
  rw [String.data_append]
  exact List.dropLast_concat

theorem to_str_foldl_aux :
    ∀ (q : List Triple) (acc : String), q ≠ [] →
    q.foldl (fun res t => res ++ lineOf t ++ "\n") acc =
      acc ++ pyJoin "\n" (q.map lineOf) ++ "\n" := by
  intro q
  induction q with
  | nil => intro acc h; exact absurd rfl h
  | cons t q ih =>
    intro acc h
    cases q with
    | nil => simp [pyJoin]
    | cons t2 q2 =>
      rw [List.foldl_cons, ih (acc ++ lineOf t ++ "\n") (by simp)]
      show acc ++ lineOf t ++ "\n" ++
          pyJoin "\n" ((t2 :: q2).map lineOf) ++ "\n" =
        acc ++ (lineOf t ++ "\n" ++ pyJoin "\n" ((t2 :: q2).map lineOf)) ++ "\n"
      rw [String.append_assoc acc (lineOf t), String.append_assoc acc]

/-- Claim C8: `to_str` renders one line per triple, newline-separated with
no trailing newline; each line is the space-separated `L` values, a space,
the space-separated `R` values, and — only when the weight is non-empty —
a further space and the space-separated weight components. -/
theorem c8_to_str_rendering (q : List Triple) (t : Triple) :
    RangeQuery.to_str q = pyJoin "\n" (q.map lineOf) ∧
    (t.w = [] →
      lineOf t = pyJoin " " (t.l.map (fun x => toString x)) ++ " " ++
        pyJoin " " (t.r.map (fun x => toString x))) ∧
    (t.w ≠ [] →
      lineOf t = pyJoin " " (t.l.map (fun x => toString x)) ++ " " ++
        pyJoin " " (t.r.map (fun x => toString x)) ++ " " ++
        pyJoin " " (t.w.map (fun x => toString x))) := by
  refine ⟨?_, ?_, ?_⟩
  · cases q with
    | nil => rfl
    | cons t2 q2 =>
      rw [RangeQuery.to_str, to_str_foldl_aux (t2 :: q2) "" (by simp),
        String.empty_append, pyDropLastChar_append_newline]
  · intro hw
    rw [lineOf, hw]
    simp
  · intro hw
    rw [lineOf, if_pos (by simpa using List.length_pos.mpr hw)]
    simp only [String.append_assoc]

/-- Claim C8 witness: rendering of a concrete two-triple batch, one
weighted and one not. -/
theorem c8_to_str_rendering_witness :
    RangeQuery.to_str [⟨[1, 2], [3, 4], []⟩, ⟨[5], [6], [7]⟩] =
      pyJoin "\n"
        (([⟨[1, 2], [3, 4], []⟩, ⟨[5], [6], [7]⟩] : List Triple).map lineOf) ∧
    RangeQuery.to_str [⟨[1, 2], [3, 4], []⟩, ⟨[5], [6], [7]⟩] =
      "1 2 3 4\n5 6 7" :=
  ⟨(c8_to_str_rendering [⟨[1, 2], [3, 4], []⟩, ⟨[5], [6], [7]⟩]
      ⟨[], [], []⟩).1, by decide⟩

/-- Claim C10: `random` with `num ≤ 0` performs no iteration at all — it
succeeds with an empty batch and the untouched random source, for any
bounds (valid or not) — and `to_str` of an empty batch is the empty
string. -/
theorem c10_empty_batch (num : Int) (pr : Option (List BoundSpec))
    (mode : RangeQueryRandomMode)
    (wg : Option (Nat → List Int → List Int → List Int)) (fuel : Nat)
    (g : RNG) (hnum : num ≤ 0) :
    RangeQuery.random num pr mode wg fuel g = (Except.ok [], g) ∧
    RangeQuery.to_str [] = "" := by
  have h0 : num.toNat = 0 := by omega
  rw [RangeQuery.random, h0]
  exact ⟨rfl, rfl⟩

/-- Claim C10 witness: `num = -3` with invalid bounds `(5, 4)` still
succeeds with an empty batch. -/
theorem c10_empty_batch_witness :
    RangeQuery.random (-3) (some [BoundSpec.pair 5 4])
        RangeQueryRandomMode.ALLOW_EQUAL none 0 gZero =
      (Except.ok [], gZero) ∧
    RangeQuery.to_str [] = "" :=
  c10_empty_batch (-3) (some [BoundSpec.pair 5 4])
    RangeQueryRandomMode.ALLOW_EQUAL none 0 gZero (by decide)
